import Mathlib

/-!
Verification of the XML-to-graph conversion core of `igv-input-generator.py`.

The embedding models the parsed XML document (valid documents, with the
attribute conversions the script performs already applied: `int(...)` on ids,
indices and block names), the networkx graph values the script builds
(`MultiDiGraph` for the IR graph, `DiGraph` for the control-flow graph, both
modelled as insertion-ordered node/edge lists), and the conversion functions
`find_node`, `find_node_properties` and `xml2graphs`.

The filter expression handed to Python's `eval` is modelled by a small
expression language `PyExpr` with Python semantics (truthiness, operand-valued
`and`/`or`, type-erroring mixed comparisons); `FilterSrc` records whether the
source string parses.  Inside `xml2graphs` the filter is abstracted by its
boolean outcome (the Python truthiness of the value `matches` returns), since
an evaluation error aborts the whole run without producing a collection.
-/

set_option autoImplicit false

namespace IgvInputGenerator

/-- XML `<p name=...>text</p>` property element (raw text, stripping happens
during extraction just as in the script). -/
structure XmlProperty where
  name : String
  text : String
  deriving DecidableEq

/-- XML `<node id=...>` element with its `<properties>` child. -/
structure XmlNode where
  id : Int
  properties : List XmlProperty
  deriving DecidableEq

/-- XML `<edge from=... to=... index=...>` element. -/
structure XmlEdge where
  src : Int
  dst : Int
  index : Int
  deriving DecidableEq

/-- One block element of a `<controlFlow>` element: integer `name` attribute,
the node ids of its nested `<nodes>` child in document order, and the block
ids named by its `<successors>` child. -/
structure XmlBlock where
  name : Int
  nodes : List Int
  successors : List Int
  deriving DecidableEq

/-- XML `<graph name=...>` element.  `controlFlow` is `none` when the graph has
no `controlFlow` child and `some blocks` when it has one with the given block
children (possibly empty). -/
structure XmlGraph where
  name : String
  nodes : List XmlNode
  edges : List XmlEdge
  controlFlow : Option (List XmlBlock)
  deriving DecidableEq

/-- The `<method>` descriptor of a group. -/
structure XmlMethod where
  name : String
  shortName : String
  bci : Int
  deriving DecidableEq

/-- XML `<group>` element: a method descriptor and the `graph` children in
document order (`group.findall('graph')`). -/
structure XmlGroup where
  method : XmlMethod
  graphs : List XmlGraph
  deriving DecidableEq

/-- The script options the core reads (`args.list`). -/
structure Args where
  list : Bool
  deriving DecidableEq

/-- Python's `str.strip()` with no argument: remove leading and trailing
whitespace. -/
def pyStrip (s : String) : String :=
  ⟨List.reverse (List.dropWhile Char.isWhitespace
    (List.reverse (List.dropWhile Char.isWhitespace s.data)))⟩

/-- A Python dict from property names to string values, modelled as an
insertion-ordered association list with unique keys maintained by
`dictInsert`. -/
abbrev PropDict := List (String × String)

/-- `d[k] = v` on a Python dict: replace in place if the key is present,
append otherwise. -/
def dictInsert (d : PropDict) (k v : String) : PropDict :=
  if d.any (fun p => p.1 == k) then
    d.map (fun p => if p.1 == k then (k, v) else p)
  else d ++ [(k, v)]

/-- `d.pop(k, None)` on a Python dict: drop the entry with key `k`. -/
def dictPop (d : PropDict) (k : String) : PropDict :=
  d.filter (fun p => p.1 != k)

/-- `find_node(graph, idx)`: linear scan of the graph's `<nodes>` child for the
first node whose `id` equals `idx`.  The script's `assert False` fall-through
is modelled by `none`. -/
def find_node (graph : XmlGraph) (idx : Int) : Option XmlNode :=
  graph.nodes.find? (fun node => node.id == idx)

/-- `find_node_properties(graph, idx)`: locate the node, build the property
dict in document order (`p.text.strip()` applied to each value), then
`ps.pop('idx', None)`. -/
def find_node_properties (graph : XmlGraph) (idx : Int) : Option PropDict :=
  (find_node graph idx).map (fun node =>
    dictPop (node.properties.foldl (fun ps p => dictInsert ps p.name (pyStrip p.text)) []) "idx")

/-- Total wrapper used when modelling the `xml2graphs` node loop, which calls
`find_node_properties` on ids read from the same node list it scans; the
default branch is provably unreachable there (see the C10 theorem). -/
def node_properties_of (graph : XmlGraph) (node : XmlNode) : PropDict :=
  match find_node_properties graph node.id with
  | some ps => ps
  | none => []

/-- `nx.MultiDiGraph`, restricted to the operations the script uses: nodes are
an insertion-ordered list of (id, attribute dict), edges an insertion-ordered
list of (src, dst, key) triples. -/
structure MultiDiGraph where
  nodes : List (Int × PropDict)
  edges : List (Int × Int × Int)
  deriving DecidableEq

/-- `nx.MultiDiGraph()`. -/
def MultiDiGraph.empty : MultiDiGraph := ⟨[], []⟩

/-- `v in G`. -/
def MultiDiGraph.hasNode (G : MultiDiGraph) (v : Int) : Bool :=
  G.nodes.any (fun n => n.1 == v)

/-- `G.add_node(v, **attrs)`: update the existing attribute dict with `attrs`,
or append a fresh node. -/
def MultiDiGraph.add_node (G : MultiDiGraph) (v : Int) (attrs : PropDict) : MultiDiGraph :=
  if G.hasNode v then
    { G with nodes := G.nodes.map (fun n =>
        if n.1 == v then (v, attrs.foldl (fun d p => dictInsert d p.1 p.2) n.2) else n) }
  else { G with nodes := G.nodes ++ [(v, attrs)] }

/-- `G.has_edge(src, dst, key=k)`: exact-triple membership. -/
def MultiDiGraph.has_edge (G : MultiDiGraph) (src dst key : Int) : Bool :=
  G.edges.any (fun e => e == (src, dst, key))

/-- networkx auto-creates missing endpoints (with empty attribute dicts) when
an edge is added. -/
def MultiDiGraph.addNodeIfAbsent (G : MultiDiGraph) (v : Int) : MultiDiGraph :=
  if G.hasNode v then G else { G with nodes := G.nodes ++ [(v, [])] }

/-- `G.add_edge(src, dst, key=k)` (the script only calls it after a negative
`has_edge` check, so the duplicate-key update case never arises). -/
def MultiDiGraph.add_edge (G : MultiDiGraph) (src dst key : Int) : MultiDiGraph :=
  let G1 := (G.addNodeIfAbsent src).addNodeIfAbsent dst
  { G1 with edges := G1.edges ++ [(src, dst, key)] }

/-- `nx.DiGraph` as the script uses it for control flow: nodes are block ids
with an optional `nodes` attribute (the member-node list), edges are a
duplicate-free list of (block, successor) pairs. -/
structure DiGraph where
  nodes : List (Int × Option (List Int))
  edges : List (Int × Int)
  deriving DecidableEq

/-- `nx.DiGraph()`. -/
def DiGraph.empty : DiGraph := ⟨[], []⟩

/-- `v in G`. -/
def DiGraph.hasNode (G : DiGraph) (v : Int) : Bool :=
  G.nodes.any (fun n => n.1 == v)

/-- `G.add_node(v, **{'nodes': ns})`: set the `nodes` attribute, creating the
block node if needed. -/
def DiGraph.add_node (G : DiGraph) (v : Int) (ns : List Int) : DiGraph :=
  if G.hasNode v then
    { G with nodes := G.nodes.map (fun n => if n.1 == v then (v, some ns) else n) }
  else { G with nodes := G.nodes ++ [(v, some ns)] }

/-- Auto-creation of an endpoint block (no `nodes` attribute yet). -/
def DiGraph.addNodeIfAbsent (G : DiGraph) (v : Int) : DiGraph :=
  if G.hasNode v then G else { G with nodes := G.nodes ++ [(v, none)] }

/-- Edge membership in the simple digraph. -/
def DiGraph.has_edge (G : DiGraph) (u v : Int) : Bool :=
  G.edges.any (fun e => e == (u, v))

/-- `G.add_edge(u, v)` on a simple digraph: create missing endpoints, keep the
edge set duplicate-free. -/
def DiGraph.add_edge (G : DiGraph) (u v : Int) : DiGraph :=
  let G1 := (G.addNodeIfAbsent u).addNodeIfAbsent v
  if G1.has_edge u v then G1 else { G1 with edges := G1.edges ++ [(u, v)] }

/-- One iteration of the node loop of `xml2graphs`: the id is read from the
node element and handed to the property lookup. -/
def nodeInsertStep (graph : XmlGraph) (G : MultiDiGraph) (node : XmlNode) : MultiDiGraph :=
  G.add_node node.id (node_properties_of graph node)

/-- One iteration of the edge loop of `xml2graphs`: insert the
(src, dst, index) triple only when no edge with that exact triple exists. -/
def edgeInsertStep (G : MultiDiGraph) (edge : XmlEdge) : MultiDiGraph :=
  if G.has_edge edge.src edge.dst edge.index then G
  else G.add_edge edge.src edge.dst edge.index

/-- The body of `xml2graphs` that loads one IR graph: skipped entirely under
`--list`, otherwise nodes first (ids with extracted properties), then edges
with the exact-triple duplicate check. -/
def loadG (args : Args) (graph : XmlGraph) : MultiDiGraph :=
  if args.list then MultiDiGraph.empty else
    graph.edges.foldl edgeInsertStep
      (graph.nodes.foldl (nodeInsertStep graph) MultiDiGraph.empty)

/-- The body of the `controlFlow` loop for one block: rebuild the member list
by appending (`nodes.append(node)`), attach it, then add one successor edge
per `<successors>` child. -/
def processBlock (CFG : DiGraph) (xmlblock : XmlBlock) : DiGraph :=
  let nodes := xmlblock.nodes.foldl (fun ns n => ns ++ [n]) []
  let CFG := CFG.add_node xmlblock.name nodes
  xmlblock.successors.foldl (fun C succ => C.add_edge xmlblock.name succ) CFG

/-- The control-flow graph built once the script has decided to construct one:
an empty `nx.DiGraph()` under `--list`, otherwise the block loop. -/
def buildCFG (args : Args) (blocks : List XmlBlock) : DiGraph :=
  if args.list then DiGraph.empty else blocks.foldl processBlock DiGraph.empty

/-- Python truthiness of `graph.find('controlFlow')`: `find` returns `None`
when the child is missing (falsy), and an `xml.etree` `Element` is truthy
exactly when it has children (`Element.__bool__` is `len(self) != 0`). -/
def elementTruthy (e : Option (List XmlBlock)) : Bool :=
  match e with
  | none => false
  | some children => !children.isEmpty

/-- `CFG = None; if graph.find('controlFlow'): CFG = nx.DiGraph(); ...`. -/
def loadCFG (args : Args) (graph : XmlGraph) : Option DiGraph :=
  if elementTruthy graph.controlFlow then
    some (buildCFG args (graph.controlFlow.getD []))
  else none

/-- The value stored for a surviving graph: name pair, IR graph, optional
control-flow graph. -/
def graphEntry (args : Args) (short : String) (graph : XmlGraph) :
    (String × String) × MultiDiGraph × Option DiGraph :=
  ((short, graph.name), loadG args graph, loadCFG args graph)

/-- The `graphs` dict of `xml2graphs`: keys are assigned in strictly
increasing order, so the insertion-ordered dict is an association list. -/
abbrev GraphCollection := List (Nat × ((String × String) × MultiDiGraph × Option DiGraph))

/-- One iteration of the inner `for graph in group.findall('graph')` loop:
consult the filter outcome on `(graph_id, short_group_name, graph_name)`,
always increment `graph_id`, store an entry only when the filter accepts. -/
def xml2graphsStep (args : Args) (flt : Nat × String × String → Bool) (short : String)
    (st : Nat × GraphCollection) (graph : XmlGraph) : Nat × GraphCollection :=
  if !flt (st.1, short, graph.name) then (st.1 + 1, st.2)
  else (st.1 + 1, st.2 ++ [(st.1, graphEntry args short graph)])

/-- `xml2graphs(xml_root, args)`, with the filter abstracted by its boolean
outcome `flt`; returns the final counter together with the collection. -/
def xml2graphs (xml_root : List XmlGroup) (args : Args)
    (flt : Nat × String × String → Bool) : Nat × GraphCollection :=
  xml_root.foldl (fun st group =>
    group.graphs.foldl (xml2graphsStep args flt (pyStrip group.method.shortName)) st) (0, [])

/-- A Python value the filter expression sublanguage can produce. -/
inductive FValue where
  | int : Int → FValue
  | str : String → FValue
  | bool : Bool → FValue
  deriving DecidableEq

/-- The exceptions `eval` can raise on a filter: `SyntaxError` from parsing,
`TypeError` from evaluation (e.g. ordering an int against a str). -/
inductive PyErr where
  | parseErr
  | typeErr
  deriving DecidableEq

/-- The filter expression sublanguage over the three symbols of
`filter_symbols`: `g`, `method(...)`, `phase(...)` (the two lambdas ignore
their argument and return the captured method/phase name), with literals,
(in)equality, ordering, and Python's boolean connectives. -/
inductive PyExpr where
  | intLit : Int → PyExpr
  | strLit : String → PyExpr
  | boolLit : Bool → PyExpr
  | varG : PyExpr
  | callMethod : PyExpr → PyExpr
  | callPhase : PyExpr → PyExpr
  | eq : PyExpr → PyExpr → PyExpr
  | ne : PyExpr → PyExpr → PyExpr
  | lt : PyExpr → PyExpr → PyExpr
  | le : PyExpr → PyExpr → PyExpr
  | andOp : PyExpr → PyExpr → PyExpr
  | orOp : PyExpr → PyExpr → PyExpr
  | notOp : PyExpr → PyExpr
  deriving DecidableEq

/-- Python truthiness of a value. -/
def truthy : FValue → Bool
  | .int n => n != 0
  | .str s => !s.isEmpty
  | .bool b => b

/-- Numeric view of a value (`bool` is an `int` subtype in Python). -/
def asIntVal : FValue → Option Int
  | .int n => some n
  | .bool b => some (if b then 1 else 0)
  | .str _ => none

/-- Python `==` on these values: numeric comparison when both sides are
numeric, string comparison for strings, `False` across types. -/
def pyEq (a b : FValue) : Bool :=
  match asIntVal a, asIntVal b with
  | some x, some y => x == y
  | _, _ =>
    match a, b with
    | .str s, .str t => s == t
    | _, _ => false

/-- Python `<` / `<=`: defined within numerics and within strings
(lexicographic), `TypeError` across types. -/
def pyCmp (strict : Bool) (a b : FValue) : Except PyErr FValue :=
  match asIntVal a, asIntVal b with
  | some x, some y => .ok (.bool (if strict then decide (x < y) else decide (x ≤ y)))
  | _, _ =>
    match a, b with
    | .str s, .str t => .ok (.bool (if strict then decide (s < t) else decide (s ≤ t)))
    | _, _ => .error .typeErr

/-- Evaluation of a filter expression against the environment built by
`matches` from the `(g, m, p)` tuple.  `and`/`or` are operand-valued and
short-circuiting, `not` yields a bool, the two calls evaluate and discard
their argument. -/
def evalPy (env : Int × String × String) : PyExpr → Except PyErr FValue
  | .intLit n => .ok (.int n)
  | .strLit s => .ok (.str s)
  | .boolLit b => .ok (.bool b)
  | .varG => .ok (.int env.1)
  | .callMethod e => do let _ ← evalPy env e; return .str env.2.1
  | .callPhase e => do let _ ← evalPy env e; return .str env.2.2
  | .eq a b => do let x ← evalPy env a; let y ← evalPy env b; return .bool (pyEq x y)
  | .ne a b => do let x ← evalPy env a; let y ← evalPy env b; return .bool (!pyEq x y)
  | .lt a b => do let x ← evalPy env a; let y ← evalPy env b; pyCmp true x y
  | .le a b => do let x ← evalPy env a; let y ← evalPy env b; pyCmp false x y
  | .andOp a b => do
      let x ← evalPy env a
      if truthy x then evalPy env b else return x
  | .orOp a b => do
      let x ← evalPy env a
      if truthy x then return x else evalPy env b
  | .notOp a => do let x ← evalPy env a; return .bool (!truthy x)

/-- Outcome of handing the filter source string to `eval`: either it fails to
parse, or it parses to an expression of the sublanguage. -/
inductive FilterSrc where
  | unparsable
  | parsed : PyExpr → FilterSrc
  deriving DecidableEq

/-- `matches(graph_tuple, filter)` (named `matchesFn` here since `matches` is a Lean keyword): `eval` raises `SyntaxError` on an
unparsable source, otherwise evaluates the expression against the restricted
symbol table and returns whatever value results (no boolean check). -/
def matchesFn (graph_tuple : Int × String × String) (filter : FilterSrc) :
    Except PyErr FValue :=
  match filter with
  | .unparsable => .error .parseErr
  | .parsed e => evalPy graph_tuple e

/-- The boolean outcome the `if not matches(...)` test extracts from a
successful evaluation (Python truthiness of the returned value); an error
outcome never reaches the test, it propagates out of `xml2graphs`. -/
def filterOutcome (filter : FilterSrc) (t : Nat × String × String) : Bool :=
  match matchesFn ((t.1 : Int), t.2.1, t.2.2) filter with
  | .ok v => truthy v
  | .error _ => false

/-- Whether an `eval` outcome is an exception. -/
def isErrResult : Except PyErr FValue → Bool
  | .error _ => true
  | .ok _ => false

/-- Whether an `eval` outcome is a boolean value. -/
def isBoolResult : Except PyErr FValue → Bool
  | .ok (.bool _) => true
  | _ => false

/-! ## Generic helper lemmas -/

/-- A predicate preserved by every fold step is preserved by the fold. -/
theorem foldl_invariant {σ α : Type} (P : σ → Prop) (f : σ → α → σ)
    (hf : ∀ s a, P s → P (f s a)) :
    ∀ (l : List α) (s : σ), P s → P (l.foldl f s) := by
  intro l
  induction l with
  | nil => exact fun s h => h
  | cons a l ih => exact fun s h => ih _ (hf s a h)

/-! ## C2: presence of the control-flow graph -/

/-- A graph whose `controlFlow` child exists but has no block children. -/
def graphEmptyCF : XmlGraph :=
  { name := "PhaseX", nodes := [], edges := [], controlFlow := some [] }

/-- C2 (counterexample): `graphEmptyCF` has a `controlFlow` child, yet the
script stores no ControlFlowGraph for it, because `graph.find('controlFlow')`
is evaluated for truthiness and an childless `Element` is falsy. -/
theorem c2_counterexample :
    graphEmptyCF.controlFlow = some [] ∧ loadCFG ⟨false⟩ graphEmptyCF = none :=
  ⟨rfl, rfl⟩

/-- C2 (amended): the entry for a graph has a ControlFlowGraph present if and
only if the graph element contains a `controlFlow` child with at least one
block child; a missing `controlFlow` child, or one that exists but is empty,
yields an absent ControlFlowGraph. -/
theorem c2_cfg_present_iff (args : Args) (graph : XmlGraph) :
    (loadCFG args graph).isSome = true ↔
      ∃ blocks, graph.controlFlow = some blocks ∧ blocks ≠ [] := by
  unfold loadCFG elementTruthy
  cases h : graph.controlFlow with
  | none => simp
  | some blocks => cases blocks <;> simp

/-! ## C3: outcome of filter evaluation -/

/-- C3 (counterexample): the filter source `42` parses and evaluates, the
result is not a boolean, and `matches` returns it as a value instead of
failing. -/
theorem c3_counterexample :
    matchesFn (0, "foo", "Phase1") (.parsed (.intLit 42)) = .ok (.int 42) ∧
    isBoolResult (matchesFn (0, "foo", "Phase1") (.parsed (.intLit 42))) = false ∧
    isErrResult (matchesFn (0, "foo", "Phase1") (.parsed (.intLit 42))) = false :=
  ⟨rfl, rfl, rfl⟩

/-- C3 (amended): the filter evaluator fails when the expression does not
parse (`SyntaxError`) or when its evaluation raises (e.g. the `TypeError` of
ordering the int `g` against the string `phase(g)`); an expression whose
evaluation yields a non-boolean is not rejected — its value is returned
(e.g. the source `42`) and the caller applies Python truthiness to it. -/
theorem c3_error_outcomes :
    (∀ t : Int × String × String, matchesFn t .unparsable = .error .parseErr) ∧
    (∀ t : Int × String × String,
      matchesFn t (.parsed (.lt .varG (.callPhase .varG))) = .error .typeErr) ∧
    (∀ t : Int × String × String,
      matchesFn t (.parsed (.intLit 42)) = .ok (.int 42)) :=
  ⟨fun _ => rfl, fun _ => rfl, fun _ => rfl⟩

/-! ## C9: end-to-end two-group scenario -/

/-- The two-group document of the scenario: one graph `"Phase1"` under method
shortName `"foo"`, then one graph `"Phase2"` under method shortName `"bar"`. -/
def root9 : List XmlGroup :=
  [ { method := { name := "example.foo()", shortName := "foo", bci := 0 },
      graphs := [{ name := "Phase1", nodes := [], edges := [], controlFlow := none }] },
    { method := { name := "example.bar()", shortName := "bar", bci := 0 },
      graphs := [{ name := "Phase2", nodes := [], edges := [], controlFlow := none }] } ]

/-- The filter source `g == 1`. -/
def filter9 : FilterSrc := .parsed (.eq .varG (.intLit 1))

/-- C9: `g == 1` always evaluates to a boolean, and running the conversion on
the two-group document with it yields a collection whose only key is graph_id
1, mapped to the name pair `("bar", "Phase2")` (with an empty IR graph and no
control-flow graph, as the scenario's graphs are empty). -/
theorem c9_two_group_scenario :
    (∀ t : Int × String × String, ∃ b : Bool, matchesFn t filter9 = .ok (.bool b)) ∧
    xml2graphs root9 ⟨false⟩ (filterOutcome filter9) =
      (2, [(1, (("bar", "Phase2"), MultiDiGraph.empty, none))]) := by
  refine ⟨fun t => ⟨pyEq (.int t.1) (.int 1), rfl⟩, ?_⟩
  rfl

/-! ## C10: node lookup from the construction path never fails -/

/-- C10: for a node taken from the graph's own node list — exactly how the
`xml2graphs` node loop obtains the ids it passes to `find_node_properties` —
the rescan in `find_node` always succeeds, so the `assert False` branch is
unreachable from the construction path, and the total wrapper
`node_properties_of` used in `loadG` agrees with `find_node_properties`. -/
theorem c10_find_node_total (graph : XmlGraph) (node : XmlNode)
    (h : node ∈ graph.nodes) :
    (find_node graph node.id).isSome = true ∧
    find_node_properties graph node.id = some (node_properties_of graph node) := by
  have hs : (find_node graph node.id).isSome = true := by
    unfold find_node
    exact List.find?_isSome.2 ⟨node, h, by simp⟩
  have hps : (find_node_properties graph node.id).isSome = true := by
    unfold find_node_properties
    simpa using hs
  obtain ⟨ps, hps⟩ := Option.isSome_iff_exists.1 hps
  refine ⟨hs, ?_⟩
  rw [hps]
  unfold node_properties_of
  rw [hps]

/-- Concrete instance for C10. -/
def node10 : XmlNode := { id := 7, properties := [⟨"idx", "7"⟩, ⟨"name", "add"⟩] }

/-- Concrete graph for C10, containing `node10`. -/
def graph10 : XmlGraph :=
  { name := "P", nodes := [node10], edges := [], controlFlow := none }

/-- Witness for C10 at a concrete graph and node. -/
theorem c10_witness :
    node10 ∈ graph10.nodes ∧
    ((find_node graph10 node10.id).isSome = true ∧
      find_node_properties graph10 node10.id = some (node_properties_of graph10 node10)) :=
  ⟨by decide, c10_find_node_total graph10 node10 (by decide)⟩

/-! ## C5: the `idx` key never appears in a stored property mapping -/

/-- A property dict with no `idx` key. -/
def idxFreeDict (d : PropDict) : Prop := ∀ p ∈ d, p.1 ≠ "idx"

theorem idxFreeDict_dictInsert {d : PropDict} {k v : String}
    (hd : idxFreeDict d) (hk : k ≠ "idx") : idxFreeDict (dictInsert d k v) := by
  unfold dictInsert
  split
  · intro p hp
    obtain ⟨q, hq, rfl⟩ := List.mem_map.1 hp
    split
    · exact hk
    · exact hd q hq
  · intro p hp
    rcases List.mem_append.1 hp with h | h
    · exact hd p h
    · rw [List.mem_singleton.1 h]; exact hk

theorem idxFreeDict_dictPop_idx (d : PropDict) : idxFreeDict (dictPop d "idx") := by
  intro p hp
  have := (List.mem_filter.1 hp).2
  simpa using this

theorem idxFreeDict_find_node_properties {graph : XmlGraph} {idx : Int} {ps : PropDict}
    (h : find_node_properties graph idx = some ps) : idxFreeDict ps := by
  unfold find_node_properties at h
  cases hf : find_node graph idx with
  | none => rw [hf] at h; cases h
  | some node =>
    rw [hf] at h
    injection h with h
    rw [← h]
    exact idxFreeDict_dictPop_idx _

theorem idxFreeDict_node_properties_of (graph : XmlGraph) (node : XmlNode) :
    idxFreeDict (node_properties_of graph node) := by
  unfold node_properties_of
  cases h : find_node_properties graph node.id with
  | none => intro p hp; simp at hp
  | some ps => exact idxFreeDict_find_node_properties h

theorem idxFreeDict_merge : ∀ (d2 d1 : PropDict), idxFreeDict d1 → idxFreeDict d2 →
    idxFreeDict (d2.foldl (fun d p => dictInsert d p.1 p.2) d1) := by
  intro d2
  induction d2 with
  | nil => exact fun d1 h1 _ => h1
  | cons q d2 ih =>
    intro d1 h1 h2
    exact ih _ (idxFreeDict_dictInsert h1 (h2 q (List.mem_cons_self q d2)))
      (fun p hp => h2 p (List.mem_cons_of_mem q hp))

/-- All attribute dicts stored in the IR graph lack the `idx` key. -/
def nodesIdxFree (G : MultiDiGraph) : Prop := ∀ e ∈ G.nodes, idxFreeDict e.2

theorem nodesIdxFree_add_node {G : MultiDiGraph} {v : Int} {attrs : PropDict}
    (hG : nodesIdxFree G) (ha : idxFreeDict attrs) : nodesIdxFree (G.add_node v attrs) := by
  unfold MultiDiGraph.add_node
  split
  · intro e he
    simp only [List.mem_map] at he
    obtain ⟨n, hn, rfl⟩ := he
    split
    · exact idxFreeDict_merge attrs n.2 (hG n hn) ha
    · exact hG n hn
  · intro e he
    rcases List.mem_append.1 he with h | h
    · exact hG e h
    · rw [List.mem_singleton.1 h]; exact ha

theorem nodesIdxFree_addNodeIfAbsent {G : MultiDiGraph} {v : Int}
    (hG : nodesIdxFree G) : nodesIdxFree (G.addNodeIfAbsent v) := by
  unfold MultiDiGraph.addNodeIfAbsent
  split
  · exact hG
  · intro e he
    rcases List.mem_append.1 he with h | h
    · exact hG e h
    · rw [List.mem_singleton.1 h]; intro p hp; simp at hp

theorem nodesIdxFree_add_edge {G : MultiDiGraph} {s d k : Int}
    (hG : nodesIdxFree G) : nodesIdxFree (G.add_edge s d k) := by
  intro e he
  exact nodesIdxFree_addNodeIfAbsent (nodesIdxFree_addNodeIfAbsent hG) e he

theorem nodesIdxFree_loadG (args : Args) (graph : XmlGraph) :
    nodesIdxFree (loadG args graph) := by
  unfold loadG
  split
  · intro e he; simp [MultiDiGraph.empty] at he
  · have h1 : nodesIdxFree (graph.nodes.foldl (nodeInsertStep graph) MultiDiGraph.empty) := by
      refine foldl_invariant nodesIdxFree (nodeInsertStep graph) ?_ graph.nodes _ ?_
      · intro G node hG
        exact nodesIdxFree_add_node hG (idxFreeDict_node_properties_of graph node)
      · intro e he; simp [MultiDiGraph.empty] at he
    refine foldl_invariant nodesIdxFree edgeInsertStep ?_ graph.edges _ h1
    intro G edge hG
    unfold edgeInsertStep
    split
    · exact hG
    · exact nodesIdxFree_add_edge hG

/-- C5: for every constructed graph and every node stored in it, the
extracted property mapping never contains the key `idx`. -/
theorem c5_no_idx_key (args : Args) (graph : XmlGraph) (v : Int) (d : PropDict)
    (h : (v, d) ∈ (loadG args graph).nodes) : ∀ p ∈ d, p.1 ≠ "idx" :=
  nodesIdxFree_loadG args graph (v, d) h

/-- Concrete graph for C5: its one node carries an `idx` property in the
document. -/
def graph5 : XmlGraph :=
  { name := "P",
    nodes := [{ id := 0, properties := [⟨"idx", "0"⟩, ⟨"name", "start"⟩] }],
    edges := [], controlFlow := none }

/-- Witness for C5: the stored mapping of the node of `graph5` dropped the
`idx` property. -/
theorem c5_witness :
    ((0 : Int), [(("name" : String), ("start" : String))]) ∈ (loadG ⟨false⟩ graph5).nodes ∧
    (("name" : String), ("start" : String)).1 ≠ "idx" :=
  ⟨by decide,
   c5_no_idx_key ⟨false⟩ graph5 0 [("name", "start")] (by decide) ("name", "start") (by decide)⟩

/-! ## C4: no two stored edges share a (src, dst, slot) triple -/

/-- The triple the script reads from an `<edge>` element. -/
def edgeTriple (e : XmlEdge) : Int × Int × Int := (e.src, e.dst, e.index)

theorem add_node_edges (G : MultiDiGraph) (v : Int) (attrs : PropDict) :
    (G.add_node v attrs).edges = G.edges := by
  unfold MultiDiGraph.add_node; split <;> rfl

theorem addNodeIfAbsent_edges (G : MultiDiGraph) (v : Int) :
    (G.addNodeIfAbsent v).edges = G.edges := by
  unfold MultiDiGraph.addNodeIfAbsent; split <;> rfl

theorem add_edge_edges (G : MultiDiGraph) (s d k : Int) :
    (G.add_edge s d k).edges = G.edges ++ [(s, d, k)] := by
  show ((G.addNodeIfAbsent s).addNodeIfAbsent d).edges ++ [(s, d, k)] = G.edges ++ [(s, d, k)]
  rw [addNodeIfAbsent_edges, addNodeIfAbsent_edges]

theorem has_edge_iff (G : MultiDiGraph) (s d k : Int) :
    G.has_edge s d k = true ↔ (s, d, k) ∈ G.edges := by
  unfold MultiDiGraph.has_edge
  rw [List.any_eq_true]
  constructor
  · rintro ⟨e, he, heq⟩
    rw [← beq_iff_eq.1 heq]; exact he
  · intro h; exact ⟨_, h, beq_iff_eq.2 rfl⟩

theorem nodes_fold_edges (graph : XmlGraph) (ns : List XmlNode) (G : MultiDiGraph) :
    (ns.foldl (nodeInsertStep graph) G).edges = G.edges := by
  induction ns generalizing G with
  | nil => rfl
  | cons n ns ih =>
    rw [List.foldl_cons, ih]
    exact add_node_edges G n.id _

theorem edges_fold_spec (es : List XmlEdge) :
    ∀ G : MultiDiGraph, G.edges.Nodup →
      (es.foldl edgeInsertStep G).edges.Nodup ∧
      ∀ t, t ∈ (es.foldl edgeInsertStep G).edges ↔
        t ∈ G.edges ∨ ∃ e ∈ es, edgeTriple e = t := by
  induction es with
  | nil => exact fun G h => ⟨h, fun t => by simp⟩
  | cons e es ih =>
    intro G h
    cases hhe : G.has_edge e.src e.dst e.index with
    | true =>
      have hstep : edgeInsertStep G e = G := by unfold edgeInsertStep; rw [hhe]; rfl
      rw [List.foldl_cons, hstep]
      obtain ⟨h1, h2⟩ := ih G h
      have hin : edgeTriple e ∈ G.edges := (has_edge_iff G _ _ _).1 hhe
      refine ⟨h1, fun t => ?_⟩
      rw [h2 t]
      constructor
      · rintro (ht | ⟨e2, he2, rfl⟩)
        · exact Or.inl ht
        · exact Or.inr ⟨e2, List.mem_cons_of_mem e he2, rfl⟩
      · rintro (ht | ⟨e2, he2, rfl⟩)
        · exact Or.inl ht
        · rcases List.mem_cons.1 he2 with rfl | he2
          · exact Or.inl hin
          · exact Or.inr ⟨e2, he2, rfl⟩
    | false =>
      have hstep : edgeInsertStep G e = G.add_edge e.src e.dst e.index := by
        unfold edgeInsertStep; rw [hhe]; rfl
      have hnin : edgeTriple e ∉ G.edges := by
        intro hc
        have := (has_edge_iff G e.src e.dst e.index).2 hc
        rw [hhe] at this
        cases this
      have hedges : (G.add_edge e.src e.dst e.index).edges = G.edges ++ [edgeTriple e] :=
        add_edge_edges G e.src e.dst e.index
      have hnodup : (G.add_edge e.src e.dst e.index).edges.Nodup := by
        rw [hedges]
        exact h.append (List.nodup_singleton _)
          (fun x hx hx2 => hnin (by rwa [List.mem_singleton.1 hx2] at hx))
      rw [List.foldl_cons, hstep]
      obtain ⟨h1, h2⟩ := ih _ hnodup
      refine ⟨h1, fun t => ?_⟩
      rw [h2 t, hedges]
      constructor
      · rintro (ht | ⟨e2, he2, rfl⟩)
        · rcases List.mem_append.1 ht with ht | ht
          · exact Or.inl ht
          · exact Or.inr ⟨e, List.mem_cons_self e es, (List.mem_singleton.1 ht).symm⟩
        · exact Or.inr ⟨e2, List.mem_cons_of_mem e he2, rfl⟩
      · rintro (ht | ⟨e2, he2, rfl⟩)
        · exact Or.inl (List.mem_append.2 (Or.inl ht))
        · rcases List.mem_cons.1 he2 with rfl | he2
          · exact Or.inl (List.mem_append.2 (Or.inr (List.mem_singleton.2 rfl)))
          · exact Or.inr ⟨e2, he2, rfl⟩

/-- C4: in a constructed graph no two stored edges share the same
(source, destination, slot index) triple, and a triple is stored exactly when
some document edge carries it — duplicates in the document are collapsed. -/
theorem c4_edge_dedup (args : Args) (graph : XmlGraph) (h : args.list = false) :
    (loadG args graph).edges.Nodup ∧
    ∀ t, t ∈ (loadG args graph).edges ↔ ∃ e ∈ graph.edges, edgeTriple e = t := by
  have hload : loadG args graph =
      graph.edges.foldl edgeInsertStep
        (graph.nodes.foldl (nodeInsertStep graph) MultiDiGraph.empty) := by
    unfold loadG; rw [h]; rfl
  have hbase : (graph.nodes.foldl (nodeInsertStep graph) MultiDiGraph.empty).edges = [] :=
    nodes_fold_edges graph graph.nodes MultiDiGraph.empty
  obtain ⟨h1, h2⟩ := edges_fold_spec graph.edges _ (by rw [hbase]; exact List.nodup_nil)
  rw [hload]
  refine ⟨h1, fun t => ?_⟩
  rw [h2 t, hbase]
  simp

/-- Concrete graph for C4: the scenario with edges (1,2,0), (1,2,0)
(duplicate) and (1,2,1). -/
def graph4 : XmlGraph :=
  { name := "P",
    nodes := [{ id := 1, properties := [] }, { id := 2, properties := [] }],
    edges := [⟨1, 2, 0⟩, ⟨1, 2, 0⟩, ⟨1, 2, 1⟩],
    controlFlow := none }

/-- Witness for C4 on `graph4`. -/
theorem c4_witness :
    (loadG ⟨false⟩ graph4).edges.Nodup ∧
    ((1, 2, 0) ∈ (loadG ⟨false⟩ graph4).edges ↔ ∃ e ∈ graph4.edges, edgeTriple e = (1, 2, 0)) :=
  ⟨(c4_edge_dedup ⟨false⟩ graph4 rfl).1, (c4_edge_dedup ⟨false⟩ graph4 rfl).2 (1, 2, 0)⟩

/-! ## C6 and C7: control-flow graph construction -/

/-- The block ids present in a control-flow graph. -/
def nodeIds (G : DiGraph) : List Int := G.nodes.map Prod.fst

/-- The `nodes` attribute stored under key `v` in an association list of
block-node entries. -/
def findAttr (l : List (Int × Option (List Int))) (v : Int) : Option (Option (List Int)) :=
  (l.find? (fun n => n.1 == v)).map Prod.snd

/-- The `nodes` attribute stored for block `v`: `none` when the block is
absent, `some none` when it exists without an attached member list, and
`some (some ns)` when the list `ns` is attached. -/
def nodeAttr (G : DiGraph) (v : Int) : Option (Option (List Int)) := findAttr G.nodes v

theorem find?_append_left {α : Type} (p : α → Bool) (l1 l2 : List α)
    (h : (l1.find? p).isSome = true) : (l1 ++ l2).find? p = l1.find? p := by
  induction l1 with
  | nil => simp at h
  | cons a l ih =>
    cases hpa : p a with
    | true => rw [List.cons_append, List.find?_cons_of_pos _ hpa, List.find?_cons_of_pos _ hpa]
    | false =>
      rw [List.find?_cons_of_neg _ (by simp [hpa])] at h
      rw [List.cons_append, List.find?_cons_of_neg _ (by simp [hpa]),
        List.find?_cons_of_neg _ (by simp [hpa])]
      exact ih h

theorem find?_append_right {α : Type} (p : α → Bool) (l1 l2 : List α)
    (h : l1.find? p = none) : (l1 ++ l2).find? p = l2.find? p := by
  induction l1 with
  | nil => rfl
  | cons a l ih =>
    cases hpa : p a with
    | true => rw [List.find?_cons_of_pos _ hpa] at h; cases h
    | false =>
      rw [List.find?_cons_of_neg _ (by simp [hpa])] at h
      rw [List.cons_append, List.find?_cons_of_neg _ (by simp [hpa])]
      exact ih h

theorem find?_append_of_second_none {α : Type} (p : α → Bool) (l1 l2 : List α)
    (h : l2.find? p = none) : (l1 ++ l2).find? p = l1.find? p := by
  cases hf : l1.find? p with
  | some a => rw [find?_append_left p l1 l2 (by rw [hf]; rfl), hf]
  | none => rw [find?_append_right p l1 l2 hf, h]

theorem cfg_hasNode_iff (G : DiGraph) (v : Int) :
    G.hasNode v = true ↔ v ∈ nodeIds G := by
  unfold DiGraph.hasNode nodeIds
  rw [List.any_eq_true]
  constructor
  · rintro ⟨n, hn, hb⟩; exact List.mem_map.2 ⟨n, hn, beq_iff_eq.1 hb⟩
  · intro h
    obtain ⟨n, hn, rfl⟩ := List.mem_map.1 h
    exact ⟨n, hn, beq_iff_eq.2 rfl⟩

theorem cfg_hasNode_iff_attr (G : DiGraph) (v : Int) :
    G.hasNode v = true ↔ (nodeAttr G v).isSome = true := by
  unfold DiGraph.hasNode nodeAttr findAttr
  rw [List.any_eq_true, Option.isSome_map']
  exact List.find?_isSome.symm

theorem cfg_add_node_edges (G : DiGraph) (v : Int) (ns : List Int) :
    (G.add_node v ns).edges = G.edges := by
  unfold DiGraph.add_node; split <;> rfl

theorem cfg_addNodeIfAbsent_edges (G : DiGraph) (v : Int) :
    (G.addNodeIfAbsent v).edges = G.edges := by
  unfold DiGraph.addNodeIfAbsent; split <;> rfl

theorem cfg_has_edge_iff (G : DiGraph) (u v : Int) :
    G.has_edge u v = true ↔ (u, v) ∈ G.edges := by
  unfold DiGraph.has_edge
  rw [List.any_eq_true]
  constructor
  · rintro ⟨e, he, heq⟩; rw [← beq_iff_eq.1 heq]; exact he
  · intro h; exact ⟨_, h, beq_iff_eq.2 rfl⟩

theorem cfg_add_edge_mem (G : DiGraph) (u v : Int) (e : Int × Int) :
    e ∈ (G.add_edge u v).edges ↔ e ∈ G.edges ∨ e = (u, v) := by
  simp only [DiGraph.add_edge]
  have hG1 : ((G.addNodeIfAbsent u).addNodeIfAbsent v).edges = G.edges := by
    rw [cfg_addNodeIfAbsent_edges, cfg_addNodeIfAbsent_edges]
  split
  · rw [hG1]
    next hhe =>
      have huv : (u, v) ∈ G.edges := by
        rw [← hG1]; exact (cfg_has_edge_iff _ u v).1 hhe
      constructor
      · exact Or.inl
      · rintro (h | rfl)
        · exact h
        · exact huv
  · show e ∈ ((G.addNodeIfAbsent u).addNodeIfAbsent v).edges ++ [(u, v)] ↔ _
    rw [hG1, List.mem_append, List.mem_singleton]

theorem cfg_addNodeIfAbsent_nodeIds (G : DiGraph) (v x : Int) :
    x ∈ nodeIds (G.addNodeIfAbsent v) ↔ x ∈ nodeIds G ∨ x = v := by
  unfold DiGraph.addNodeIfAbsent
  by_cases hh : G.hasNode v = true
  · have hv : v ∈ nodeIds G := (cfg_hasNode_iff G v).1 hh
    rw [if_pos hh]
    constructor
    · exact Or.inl
    · rintro (h | rfl)
      · exact h
      · exact hv
  · rw [if_neg hh]
    show x ∈ (G.nodes ++ [(v, none)]).map Prod.fst ↔ x ∈ nodeIds G ∨ x = v
    rw [List.map_append, List.mem_append]
    simp [nodeIds]

theorem cfg_add_node_nodeIds (G : DiGraph) (v : Int) (ns : List Int) (x : Int) :
    x ∈ nodeIds (G.add_node v ns) ↔ x ∈ nodeIds G ∨ x = v := by
  unfold DiGraph.add_node
  by_cases hh : G.hasNode v = true
  · have hv : v ∈ nodeIds G := (cfg_hasNode_iff G v).1 hh
    rw [if_pos hh]
    have hids : (G.nodes.map (fun n => if n.1 == v then (v, some ns) else n)).map Prod.fst
        = G.nodes.map Prod.fst := by
      rw [List.map_map]
      refine List.map_congr_left ?_
      intro n _
      simp only [Function.comp_apply]
      by_cases h : (n.1 == v) = true
      · rw [if_pos h]; exact (beq_iff_eq.1 h).symm
      · rw [if_neg h]
    show x ∈ (G.nodes.map (fun n => if n.1 == v then (v, some ns) else n)).map Prod.fst ↔
      x ∈ nodeIds G ∨ x = v
    rw [hids]
    constructor
    · exact Or.inl
    · rintro (h | rfl)
      · exact h
      · exact hv
  · rw [if_neg hh]
    show x ∈ (G.nodes ++ [(v, some ns)]).map Prod.fst ↔ x ∈ nodeIds G ∨ x = v
    rw [List.map_append, List.mem_append]
    simp [nodeIds]

theorem cfg_add_edge_nodeIds (G : DiGraph) (u v x : Int) :
    x ∈ nodeIds (G.add_edge u v) ↔ x ∈ nodeIds G ∨ x = u ∨ x = v := by
  simp only [DiGraph.add_edge]
  have hG1 : x ∈ nodeIds ((G.addNodeIfAbsent u).addNodeIfAbsent v) ↔
      x ∈ nodeIds G ∨ x = u ∨ x = v := by
    rw [cfg_addNodeIfAbsent_nodeIds, cfg_addNodeIfAbsent_nodeIds]
    tauto
  split
  · exact hG1
  · exact hG1

/-! Attribute preservation lemmas for C6, at the level of the underlying
association lists. -/

theorem find?_map_update_self (l : List (Int × Option (List Int))) (v : Int) (ns : List Int)
    (h : (l.find? (fun n => n.1 == v)).isSome = true) :
    (l.map (fun n => if n.1 == v then (v, some ns) else n)).find? (fun n => n.1 == v) =
      some (v, some ns) := by
  induction l with
  | nil => simp at h
  | cons n l ih =>
    simp only [List.map_cons]
    by_cases hn : (n.1 == v) = true
    · rw [if_pos hn, List.find?_cons_of_pos _ (by simp)]
    · rw [List.find?_cons_of_neg _ (by exact hn)] at h
      rw [if_neg hn, List.find?_cons_of_neg _ (by exact hn)]
      exact ih h

theorem find?_map_update_other (l : List (Int × Option (List Int))) (v x : Int) (ns : List Int)
    (hx : x ≠ v) :
    (l.map (fun n => if n.1 == v then (v, some ns) else n)).find? (fun n => n.1 == x) =
      l.find? (fun n => n.1 == x) := by
  induction l with
  | nil => rfl
  | cons n l ih =>
    simp only [List.map_cons]
    by_cases hn : (n.1 == v) = true
    · have hvx : ¬ (((v, some ns) : Int × Option (List Int)).1 == x) = true :=
        fun hc => hx (beq_iff_eq.1 hc).symm
      have hnx : ¬ (n.1 == x) = true :=
        fun hc => hx ((beq_iff_eq.1 hc).symm.trans (beq_iff_eq.1 hn))
      rw [if_pos hn, List.find?_cons_of_neg _ (by exact hvx), List.find?_cons_of_neg _ (by exact hnx)]
      exact ih
    · rw [if_neg hn]
      by_cases hnx : (n.1 == x) = true
      · rw [List.find?_cons_of_pos _ (by exact hnx), List.find?_cons_of_pos _ (by exact hnx)]
      · rw [List.find?_cons_of_neg _ (by exact hnx), List.find?_cons_of_neg _ (by exact hnx)]
        exact ih

theorem cfg_find?_none_of_not_hasNode (G : DiGraph) (v : Int)
    (hh : ¬ G.hasNode v = true) : G.nodes.find? (fun n => n.1 == v) = none := by
  cases hf : G.nodes.find? (fun n => n.1 == v) with
  | none => rfl
  | some n =>
    exact absurd ((cfg_hasNode_iff_attr G v).2
      (by unfold nodeAttr findAttr; rw [hf]; rfl)) hh

theorem cfg_add_node_attr_self (G : DiGraph) (v : Int) (ns : List Int) :
    nodeAttr (G.add_node v ns) v = some (some ns) := by
  unfold DiGraph.add_node
  by_cases hh : G.hasNode v = true
  · rw [if_pos hh]
    have hfind : (G.nodes.find? (fun n => n.1 == v)).isSome = true := by
      have := (cfg_hasNode_iff_attr G v).1 hh
      unfold nodeAttr findAttr at this
      rwa [Option.isSome_map'] at this
    show findAttr (G.nodes.map (fun n => if n.1 == v then (v, some ns) else n)) v
      = some (some ns)
    unfold findAttr
    rw [find?_map_update_self G.nodes v ns hfind]
    rfl
  · rw [if_neg hh]
    show findAttr (G.nodes ++ [(v, some ns)]) v = some (some ns)
    unfold findAttr
    rw [find?_append_right _ _ _ (cfg_find?_none_of_not_hasNode G v hh),
      List.find?_cons_of_pos _ (by simp)]
    rfl

theorem cfg_add_node_attr_other (G : DiGraph) (v : Int) (ns : List Int) (x : Int)
    (hx : x ≠ v) : nodeAttr (G.add_node v ns) x = nodeAttr G x := by
  unfold DiGraph.add_node
  by_cases hh : G.hasNode v = true
  · rw [if_pos hh]
    show findAttr (G.nodes.map (fun n => if n.1 == v then (v, some ns) else n)) x
      = nodeAttr G x
    unfold findAttr nodeAttr
    rw [find?_map_update_other G.nodes v x ns hx]
    rfl
  · rw [if_neg hh]
    show findAttr (G.nodes ++ [(v, some ns)]) x = nodeAttr G x
    unfold findAttr nodeAttr
    rw [find?_append_of_second_none _ _ _
      (by rw [List.find?_cons_of_neg _ (by exact fun hc => hx (beq_iff_eq.1 hc).symm)]; rfl)]
    rfl

theorem cfg_addNodeIfAbsent_attr_of_isSome (G : DiGraph) (v x : Int)
    (h : (nodeAttr G x).isSome = true) : nodeAttr (G.addNodeIfAbsent v) x = nodeAttr G x := by
  unfold DiGraph.addNodeIfAbsent
  by_cases hh : G.hasNode v = true
  · rw [if_pos hh]
  · rw [if_neg hh]
    have hfind : (G.nodes.find? (fun n => n.1 == x)).isSome = true := by
      unfold nodeAttr findAttr at h
      rwa [Option.isSome_map'] at h
    show findAttr (G.nodes ++ [(v, none)]) x = nodeAttr G x
    unfold findAttr nodeAttr
    rw [find?_append_left _ _ _ hfind]
    rfl

theorem cfg_add_edge_attr_of_isSome (G : DiGraph) (u v x : Int)
    (h : (nodeAttr G x).isSome = true) : nodeAttr (G.add_edge u v) x = nodeAttr G x := by
  simp only [DiGraph.add_edge]
  have h1 : nodeAttr (G.addNodeIfAbsent u) x = nodeAttr G x :=
    cfg_addNodeIfAbsent_attr_of_isSome G u x h
  have h2 : nodeAttr ((G.addNodeIfAbsent u).addNodeIfAbsent v) x = nodeAttr G x := by
    rw [cfg_addNodeIfAbsent_attr_of_isSome _ v x (by rw [h1]; exact h), h1]
  split
  · exact h2
  · exact h2

theorem cfg_succ_fold_attr (ss : List Int) :
    ∀ (G : DiGraph) (bname x : Int) (a : Option (List Int)),
      nodeAttr G x = some a →
      nodeAttr (ss.foldl (fun C succ => C.add_edge bname succ) G) x = some a := by
  induction ss with
  | nil => exact fun G bname x a h => h
  | cons s ss ih =>
    intro G bname x a h
    rw [List.foldl_cons]
    exact ih _ bname x a
      (by rw [cfg_add_edge_attr_of_isSome _ _ _ _ (by rw [h]; rfl)]; exact h)

theorem foldl_append_eq (l : List Int) : ∀ acc : List Int,
    l.foldl (fun ns n => ns ++ [n]) acc = acc ++ l := by
  induction l with
  | nil => intro acc; simp
  | cons n l ih =>
    intro acc
    rw [List.foldl_cons, ih]
    simp

theorem processBlock_attr_self (G : DiGraph) (b : XmlBlock) :
    nodeAttr (processBlock G b) b.name = some (some b.nodes) := by
  unfold processBlock
  rw [cfg_succ_fold_attr b.successors _ b.name b.name (some b.nodes)]
  rw [foldl_append_eq b.nodes [], List.nil_append]
  exact cfg_add_node_attr_self G b.name b.nodes

theorem processBlock_attr_preserved (G : DiGraph) (b : XmlBlock) (x : Int)
    (a : Option (List Int)) (hx : x ≠ b.name) (h : nodeAttr G x = some a) :
    nodeAttr (processBlock G b) x = some a := by
  unfold processBlock
  exact cfg_succ_fold_attr b.successors _ b.name x a
    (by rw [cfg_add_node_attr_other G b.name _ x hx]; exact h)

theorem cfg_fold_attr_preserved (bs : List XmlBlock) :
    ∀ (G : DiGraph) (x : Int) (a : Option (List Int)),
      x ∉ bs.map XmlBlock.name → nodeAttr G x = some a →
      nodeAttr (bs.foldl processBlock G) x = some a := by
  induction bs with
  | nil => exact fun G x a _ h => h
  | cons b bs ih =>
    intro G x a hnotin h
    rw [List.map_cons] at hnotin
    rw [List.foldl_cons]
    exact ih _ x a (fun hc => hnotin (List.mem_cons_of_mem _ hc))
      (processBlock_attr_preserved G b x a
        (fun hc => hnotin (hc ▸ List.mem_cons_self _ _)) h)

theorem cfg_fold_attr (bs : List XmlBlock) :
    ∀ (G : DiGraph) (b : XmlBlock), b ∈ bs → (bs.map XmlBlock.name).Nodup →
      nodeAttr (bs.foldl processBlock G) b.name = some (some b.nodes) := by
  induction bs with
  | nil => intro G b hb _; cases hb
  | cons b0 bs ih =>
    intro G b hb hnd
    rw [List.map_cons, List.nodup_cons] at hnd
    rw [List.foldl_cons]
    rcases List.mem_cons.1 hb with rfl | hb
    · exact cfg_fold_attr_preserved bs _ b.name (some b.nodes) hnd.1
        (processBlock_attr_self G b)
    · exact ih _ b hb hnd.2

/-- C6: when block names are distinct, the member-node list stored for each
block of the constructed control-flow graph is exactly the id sequence of the
block's nested `nodes` element, in document order. -/
theorem c6_block_node_order (blocks : List XmlBlock) (b : XmlBlock)
    (hnd : (blocks.map XmlBlock.name).Nodup) (hb : b ∈ blocks) :
    nodeAttr (buildCFG ⟨false⟩ blocks) b.name = some (some b.nodes) :=
  cfg_fold_attr blocks DiGraph.empty b hb hnd

/-- Concrete block list for C6: two blocks whose schedules are not sorted. -/
def blocks6 : List XmlBlock :=
  [{ name := 0, nodes := [11, 10], successors := [1] },
   { name := 1, nodes := [12], successors := [] }]

/-- Witness for C6 on `blocks6`: block 0 keeps its unsorted schedule. -/
theorem c6_witness :
    nodeAttr (buildCFG ⟨false⟩ blocks6) (0 : Int) = some (some [11, 10]) :=
  c6_block_node_order blocks6 { name := 0, nodes := [11, 10], successors := [1] }
    (by decide) (by decide)

/-! Membership characterizations for C7. -/

theorem cfg_succ_fold_nodeIds (ss : List Int) :
    ∀ (G : DiGraph) (bname : Int), bname ∈ nodeIds G → ∀ x : Int,
      (x ∈ nodeIds (ss.foldl (fun C succ => C.add_edge bname succ) G) ↔
        x ∈ nodeIds G ∨ x ∈ ss) := by
  induction ss with
  | nil => intro G bname _ x; simp
  | cons s ss ih =>
    intro G bname hb x
    rw [List.foldl_cons]
    have hb2 : bname ∈ nodeIds (G.add_edge bname s) :=
      (cfg_add_edge_nodeIds G bname s bname).2 (Or.inl hb)
    rw [ih _ bname hb2 x, cfg_add_edge_nodeIds, List.mem_cons]
    constructor
    · rintro ((h | rfl | rfl) | h)
      · exact Or.inl h
      · exact Or.inl hb
      · exact Or.inr (Or.inl rfl)
      · exact Or.inr (Or.inr h)
    · rintro (h | rfl | h)
      · exact Or.inl (Or.inl h)
      · exact Or.inl (Or.inr (Or.inr rfl))
      · exact Or.inr h

theorem cfg_succ_fold_edges (ss : List Int) :
    ∀ (G : DiGraph) (bname : Int) (e : Int × Int),
      e ∈ (ss.foldl (fun C succ => C.add_edge bname succ) G).edges ↔
        e ∈ G.edges ∨ (e.1 = bname ∧ e.2 ∈ ss) := by
  induction ss with
  | nil => intro G bname e; simp
  | cons s ss ih =>
    intro G bname e
    rw [List.foldl_cons, ih, cfg_add_edge_mem, List.mem_cons]
    constructor
    · rintro ((h | rfl) | h)
      · exact Or.inl h
      · exact Or.inr ⟨rfl, Or.inl rfl⟩
      · exact Or.inr ⟨h.1, Or.inr h.2⟩
    · rintro (h | ⟨h1, h2 | h2⟩)
      · exact Or.inl (Or.inl h)
      · exact Or.inl (Or.inr (Prod.ext h1 h2))
      · exact Or.inr ⟨h1, h2⟩

theorem processBlock_nodeIds (G : DiGraph) (b : XmlBlock) (x : Int) :
    x ∈ nodeIds (processBlock G b) ↔ x ∈ nodeIds G ∨ x = b.name ∨ x ∈ b.successors := by
  unfold processBlock
  have hb : b.name ∈
      nodeIds (G.add_node b.name (b.nodes.foldl (fun ns n => ns ++ [n]) [])) :=
    (cfg_add_node_nodeIds G b.name _ b.name).2 (Or.inr rfl)
  rw [cfg_succ_fold_nodeIds b.successors _ b.name hb x, cfg_add_node_nodeIds]
  tauto

theorem processBlock_edges (G : DiGraph) (b : XmlBlock) (e : Int × Int) :
    e ∈ (processBlock G b).edges ↔ e ∈ G.edges ∨ (e.1 = b.name ∧ e.2 ∈ b.successors) := by
  unfold processBlock
  rw [cfg_succ_fold_edges b.successors _ b.name e, cfg_add_node_edges]

theorem cfg_fold_nodeIds (bs : List XmlBlock) :
    ∀ (G : DiGraph) (x : Int),
      x ∈ nodeIds (bs.foldl processBlock G) ↔
        x ∈ nodeIds G ∨ ∃ b ∈ bs, x = b.name ∨ x ∈ b.successors := by
  induction bs with
  | nil => intro G x; simp
  | cons b bs ih =>
    intro G x
    rw [List.foldl_cons, ih, processBlock_nodeIds]
    constructor
    · rintro ((h | h | h) | ⟨b2, hb2, h2⟩)
      · exact Or.inl h
      · exact Or.inr ⟨b, List.mem_cons_self b bs, Or.inl h⟩
      · exact Or.inr ⟨b, List.mem_cons_self b bs, Or.inr h⟩
      · exact Or.inr ⟨b2, List.mem_cons_of_mem b hb2, h2⟩
    · rintro (h | ⟨b2, hb2, h2⟩)
      · exact Or.inl (Or.inl h)
      · rcases List.mem_cons.1 hb2 with rfl | hb2
        · exact Or.inl (Or.inr h2)
        · exact Or.inr ⟨b2, hb2, h2⟩

theorem cfg_fold_edges (bs : List XmlBlock) :
    ∀ (G : DiGraph) (e : Int × Int),
      e ∈ (bs.foldl processBlock G).edges ↔
        e ∈ G.edges ∨ ∃ b ∈ bs, e.1 = b.name ∧ e.2 ∈ b.successors := by
  induction bs with
  | nil => intro G e; simp
  | cons b bs ih =>
    intro G e
    rw [List.foldl_cons, ih, processBlock_edges]
    constructor
    · rintro ((h | h) | ⟨b2, hb2, h2⟩)
      · exact Or.inl h
      · exact Or.inr ⟨b, List.mem_cons_self b bs, h⟩
      · exact Or.inr ⟨b2, List.mem_cons_of_mem b hb2, h2⟩
    · rintro (h | ⟨b2, hb2, h2⟩)
      · exact Or.inl (Or.inl h)
      · rcases List.mem_cons.1 hb2 with rfl | hb2
        · exact Or.inl (Or.inr h2)
        · exact Or.inr ⟨b2, hb2, h2⟩

/-- C7: a successor reference to a block id that is declared later or never
is still recorded — the edge is stored and the referenced id becomes a block
node — and the sets of block ids and of block-to-block edges produced are
independent of the order in which block elements appear. -/
theorem c7_cfg_order_independent (bs bs2 : List XmlBlock) (hperm : bs.Perm bs2) :
    (∀ b ∈ bs, ∀ s ∈ b.successors,
        (b.name, s) ∈ (buildCFG ⟨false⟩ bs).edges ∧ s ∈ nodeIds (buildCFG ⟨false⟩ bs)) ∧
    (∀ x : Int, x ∈ nodeIds (buildCFG ⟨false⟩ bs) ↔ x ∈ nodeIds (buildCFG ⟨false⟩ bs2)) ∧
    (∀ e : Int × Int,
        e ∈ (buildCFG ⟨false⟩ bs).edges ↔ e ∈ (buildCFG ⟨false⟩ bs2).edges) := by
  have hbuild : ∀ l : List XmlBlock,
      buildCFG ⟨false⟩ l = l.foldl processBlock DiGraph.empty := fun l => rfl
  refine ⟨?_, ?_, ?_⟩
  · intro b hb s hs
    constructor
    · rw [hbuild, cfg_fold_edges]
      exact Or.inr ⟨b, hb, rfl, hs⟩
    · rw [hbuild, cfg_fold_nodeIds]
      exact Or.inr ⟨b, hb, Or.inr hs⟩
  · intro x
    rw [hbuild, hbuild, cfg_fold_nodeIds, cfg_fold_nodeIds]
    constructor
    · rintro (h | ⟨b, hb, h⟩)
      · exact Or.inl h
      · exact Or.inr ⟨b, hperm.mem_iff.1 hb, h⟩
    · rintro (h | ⟨b, hb, h⟩)
      · exact Or.inl h
      · exact Or.inr ⟨b, hperm.mem_iff.2 hb, h⟩
  · intro e
    rw [hbuild, hbuild, cfg_fold_edges, cfg_fold_edges]
    constructor
    · rintro (h | ⟨b, hb, h⟩)
      · exact Or.inl h
      · exact Or.inr ⟨b, hperm.mem_iff.1 hb, h⟩
    · rintro (h | ⟨b, hb, h⟩)
      · exact Or.inl h
      · exact Or.inr ⟨b, hperm.mem_iff.2 hb, h⟩

/-- Concrete block list for C7: block 0 names successors 1 (declared later)
and 2 (never declared). -/
def blocks7 : List XmlBlock :=
  [{ name := 0, nodes := [], successors := [1, 2] },
   { name := 1, nodes := [], successors := [] }]

/-- `blocks7` in the reverse declaration order. -/
def blocks7r : List XmlBlock :=
  [{ name := 1, nodes := [], successors := [] },
   { name := 0, nodes := [], successors := [1, 2] }]

/-- Witness for C7 on `blocks7` and its reversal. -/
theorem c7_witness :
    (((0 : Int), (2 : Int)) ∈ (buildCFG ⟨false⟩ blocks7).edges ∧
      (2 : Int) ∈ nodeIds (buildCFG ⟨false⟩ blocks7)) ∧
    ((2 : Int) ∈ nodeIds (buildCFG ⟨false⟩ blocks7) ↔
      (2 : Int) ∈ nodeIds (buildCFG ⟨false⟩ blocks7r)) ∧
    (((0 : Int), (2 : Int)) ∈ (buildCFG ⟨false⟩ blocks7).edges ↔
      ((0 : Int), (2 : Int)) ∈ (buildCFG ⟨false⟩ blocks7r).edges) :=
  ⟨(c7_cfg_order_independent blocks7 blocks7r (by decide)).1
      { name := 0, nodes := [], successors := [1, 2] } (by decide) 2 (by decide),
   (c7_cfg_order_independent blocks7 blocks7r (by decide)).2.1 2,
   (c7_cfg_order_independent blocks7 blocks7r (by decide)).2.2 (0, 2)⟩

/-! ## C1: the global graph_id counter -/

/-- Total number of `graph` elements across all groups. -/
def totalGraphs (root : List XmlGroup) : Nat :=
  (root.map (fun group => group.graphs.length)).sum

/-- The graphs of the document in traversal order, each paired with its
group's stripped shortName. -/
def docGraphs (root : List XmlGroup) : List (String × XmlGraph) :=
  (root.map (fun group =>
    group.graphs.map (fun g => (pyStrip group.method.shortName, g)))).flatten

/-- Pair each list element with its position, counting from `k`. -/
def enumFromK (k : Nat) : List (String × XmlGraph) → List (Nat × String × XmlGraph)
  | [] => []
  | p :: l => (k, p.1, p.2) :: enumFromK (k + 1) l

/-- The entries the conversion stores for the graph sequence `l` when the
counter starts at `k`: one entry per filter-accepted graph, keyed by its
position. -/
def entriesFrom (args : Args) (flt : Nat × String × String → Bool)
    (l : List (String × XmlGraph)) (k : Nat) : GraphCollection :=
  ((enumFromK k l).filter (fun p => flt (p.1, p.2.1, p.2.2.name))).map
    (fun p => (p.1, graphEntry args p.2.1 p.2.2))

theorem enumFromK_append : ∀ (l1 l2 : List (String × XmlGraph)) (k : Nat),
    enumFromK k (l1 ++ l2) = enumFromK k l1 ++ enumFromK (k + l1.length) l2 := by
  intro l1
  induction l1 with
  | nil => intro l2 k; rfl
  | cons p l ih =>
    intro l2 k
    show (k, p.1, p.2) :: enumFromK (k + 1) (l ++ l2) =
      (k, p.1, p.2) :: enumFromK (k + 1) l ++ enumFromK (k + (l.length + 1)) l2
    rw [ih l2 (k + 1)]
    have h : k + 1 + l.length = k + (l.length + 1) := by omega
    rw [h, List.cons_append]

theorem entriesFrom_append (args : Args) (flt : Nat × String × String → Bool)
    (l1 l2 : List (String × XmlGraph)) (k : Nat) :
    entriesFrom args flt (l1 ++ l2) k =
      entriesFrom args flt l1 k ++ entriesFrom args flt l2 (k + l1.length) := by
  unfold entriesFrom
  rw [enumFromK_append, List.filter_append, List.map_append]

theorem entriesFrom_cons (args : Args) (flt : Nat × String × String → Bool)
    (p : String × XmlGraph) (l : List (String × XmlGraph)) (k : Nat) :
    entriesFrom args flt (p :: l) k =
      (if flt (k, p.1, p.2.name) = true then [(k, graphEntry args p.1 p.2)] else []) ++
        entriesFrom args flt l (k + 1) := by
  unfold entriesFrom
  show ((⟨k, p.1, p.2⟩ :: enumFromK (k + 1) l).filter
      (fun q => flt (q.1, q.2.1, q.2.2.name))).map
      (fun q => (q.1, graphEntry args q.2.1 q.2.2)) = _
  by_cases hf : flt (k, p.1, p.2.name) = true
  · rw [List.filter_cons_of_pos (by exact hf), List.map_cons, if_pos hf]
    rfl
  · rw [List.filter_cons_of_neg (by exact hf), if_neg hf]
    rfl

theorem graphs_fold_spec (args : Args) (flt : Nat × String × String → Bool) (short : String) :
    ∀ (gs : List XmlGraph) (k : Nat) (acc : GraphCollection),
      gs.foldl (xml2graphsStep args flt short) (k, acc) =
        (k + gs.length,
          acc ++ entriesFrom args flt (gs.map (fun g => (short, g))) k) := by
  intro gs
  induction gs with
  | nil => intro k acc; simp [entriesFrom, enumFromK]
  | cons g gs ih =>
    intro k acc
    rw [List.foldl_cons]
    cases hf : flt (k, short, g.name) with
    | true =>
      have hstep : xml2graphsStep args flt short (k, acc) g =
          (k + 1, acc ++ [(k, graphEntry args short g)]) := by
        simp [xml2graphsStep, hf]
      rw [hstep, ih (k + 1) _, List.map_cons, entriesFrom_cons, if_pos (by exact hf)]
      have hn : k + 1 + gs.length = k + (gs.length + 1) := by omega
      rw [hn, List.append_assoc]
      rfl
    | false =>
      have hstep : xml2graphsStep args flt short (k, acc) g = (k + 1, acc) := by
        simp [xml2graphsStep, hf]
      rw [hstep, ih (k + 1) acc, List.map_cons, entriesFrom_cons,
        if_neg (by simp [hf])]
      have hn : k + 1 + gs.length = k + (gs.length + 1) := by omega
      rw [hn]
      rfl

theorem root_fold_spec (args : Args) (flt : Nat × String × String → Bool) :
    ∀ (root : List XmlGroup) (k : Nat) (acc : GraphCollection),
      root.foldl (fun st group =>
        group.graphs.foldl (xml2graphsStep args flt (pyStrip group.method.shortName)) st)
        (k, acc) =
        (k + (docGraphs root).length, acc ++ entriesFrom args flt (docGraphs root) k) := by
  intro root
  induction root with
  | nil => intro k acc; simp [docGraphs, entriesFrom, enumFromK]
  | cons group root ih =>
    intro k acc
    rw [List.foldl_cons,
      graphs_fold_spec args flt (pyStrip group.method.shortName) group.graphs k acc,
      ih (k + group.graphs.length) _]
    have hdoc : docGraphs (group :: root) =
        group.graphs.map (fun g => (pyStrip group.method.shortName, g)) ++ docGraphs root := by
      simp [docGraphs]
    rw [hdoc, entriesFrom_append, List.length_map, List.length_append, List.length_map,
      ← Nat.add_assoc, List.append_assoc]

theorem docGraphs_length (root : List XmlGroup) :
    (docGraphs root).length = totalGraphs root := by
  unfold docGraphs totalGraphs
  rw [List.length_flatten, List.map_map]
  congr 1
  refine List.map_congr_left ?_
  intro group _
  simp

theorem enumFromK_fst (l : List (String × XmlGraph)) : ∀ k : Nat,
    (enumFromK k l).map Prod.fst = List.range' k l.length := by
  induction l with
  | nil => intro k; rfl
  | cons p l ih =>
    intro k
    show k :: (enumFromK (k + 1) l).map Prod.fst = List.range' k (l.length + 1)
    rw [ih (k + 1)]
    rfl

theorem entriesFrom_keys (args : Args) (flt : Nat × String × String → Bool)
    (l : List (String × XmlGraph)) (k : Nat) :
    ((entriesFrom args flt l k).map Prod.fst).Nodup := by
  unfold entriesFrom
  rw [List.map_map]
  rw [show (Prod.fst ∘ fun q : Nat × String × XmlGraph =>
    (q.1, graphEntry args q.2.1 q.2.2)) = Prod.fst from rfl]
  have hbig : ((enumFromK k l).map Prod.fst).Nodup := by
    rw [enumFromK_fst]
    exact List.nodup_range' k l.length
  exact hbig.sublist ((List.filter_sublist _).map Prod.fst)

theorem entriesFrom_mem (args : Args) (flt : Nat × String × String → Bool) :
    ∀ (l : List (String × XmlGraph)) (k i : Nat)
      (e : (String × String) × MultiDiGraph × Option DiGraph),
      (i, e) ∈ entriesFrom args flt l k →
      ∃ p : String × XmlGraph, l[i - k]? = some p ∧ k ≤ i ∧
        flt (i, p.1, p.2.name) = true ∧ e = graphEntry args p.1 p.2 := by
  intro l
  induction l with
  | nil => intro k i e h; simp [entriesFrom, enumFromK] at h
  | cons p l ih =>
    intro k i e h
    rw [entriesFrom_cons] at h
    rcases List.mem_append.1 h with h | h
    · by_cases hf : flt (k, p.1, p.2.name) = true
      · rw [if_pos hf, List.mem_singleton] at h
        have hi : i = k := congrArg Prod.fst h
        have he : e = graphEntry args p.1 p.2 := congrArg Prod.snd h
        subst hi
        exact ⟨p, by simp, Nat.le_refl _, hf, he⟩
      · rw [if_neg hf] at h
        exact absurd h (List.not_mem_nil _)
    · obtain ⟨p2, hp2, hki, hflt, he⟩ := ih (k + 1) i e h
      refine ⟨p2, ?_, by omega, hflt, he⟩
      have hik : i - k = (i - (k + 1)) + 1 := by omega
      rw [hik]
      simpa using hp2

/-- C1: the conversion's final counter equals the total number of `graph`
elements (every graph consumes one id, filtered out or not); the stored
collection is exactly the filter-accepted subsequence of the document's
graphs keyed by document position, so every surviving graph keeps the id it
would get under any other filter; and no two entries share a graph_id. -/
theorem c1_graph_id_counter (root : List XmlGroup) (args : Args)
    (flt : Nat × String × String → Bool) :
    (xml2graphs root args flt).1 = totalGraphs root ∧
    (xml2graphs root args flt).2 = entriesFrom args flt (docGraphs root) 0 ∧
    (∀ (i : Nat) (e : (String × String) × MultiDiGraph × Option DiGraph),
        (i, e) ∈ (xml2graphs root args flt).2 →
          ∃ p : String × XmlGraph, (docGraphs root)[i]? = some p ∧
            flt (i, p.1, p.2.name) = true ∧ e = graphEntry args p.1 p.2) ∧
    ((xml2graphs root args flt).2.map Prod.fst).Nodup := by
  have hmain : xml2graphs root args flt =
      (0 + (docGraphs root).length, [] ++ entriesFrom args flt (docGraphs root) 0) :=
    root_fold_spec args flt root 0 []
  rw [Nat.zero_add, List.nil_append] at hmain
  refine ⟨?_, ?_, ?_, ?_⟩
  · rw [hmain]
    exact docGraphs_length root
  · rw [hmain]
  · intro i e h
    rw [hmain] at h
    obtain ⟨p, hp, _, hflt, he⟩ := entriesFrom_mem args flt (docGraphs root) 0 i e h
    rw [Nat.sub_zero] at hp
    exact ⟨p, hp, hflt, he⟩
  · rw [hmain]
    exact entriesFrom_keys args flt (docGraphs root) 0

/-- Witness for C1 on the concrete two-group document with the always-true
filter. -/
theorem c1_witness :
    (xml2graphs root9 ⟨false⟩ (fun _ => true)).1 = totalGraphs root9 ∧
    (∃ p : String × XmlGraph, (docGraphs root9)[1]? = some p ∧
      (fun _ : Nat × String × String => true) ((1 : Nat), p.1, p.2.name) = true ∧
      ((("bar", "Phase2"), MultiDiGraph.empty, none) :
        (String × String) × MultiDiGraph × Option DiGraph) = graphEntry ⟨false⟩ p.1 p.2) ∧
    ((xml2graphs root9 ⟨false⟩ (fun _ => true)).2.map Prod.fst).Nodup :=
  ⟨(c1_graph_id_counter root9 ⟨false⟩ (fun _ => true)).1,
   (c1_graph_id_counter root9 ⟨false⟩ (fun _ => true)).2.2.1 1
     ((("bar", "Phase2"), MultiDiGraph.empty, none)) (by decide),
   (c1_graph_id_counter root9 ⟨false⟩ (fun _ => true)).2.2.2⟩

end IgvInputGenerator
